import Mathlib

/-!
Verification of the 2048 board engine and session orchestration.

The definitions below are shallow embeddings of the TypeScript source:
`src/utils/board.ts` (board transformations and queries) and
`src/hooks/useGameLogic.ts` (session orchestration in `handleMove`).
Boards are lists of rows of natural numbers; a cell value of `0` means empty.
Randomness (used by `addRandomTile`) is made explicit: the caller passes the
draw for the empty-cell index and the 2-vs-4 choice.
-/

namespace Game2048

/-- A board: list of rows of tile values (`0` = empty).  `BoardType` in the source. -/
abbrev Board := List (List Nat)

/-- Cell access with the out-of-range default: `board[r][c]` in the source
(all source accesses are in range). -/
def cellAt (b : Board) (r c : Nat) : Nat := (b.getD r []).getD c 0

/-- Generic cell access for grids of any inhabited element type
(the source rotations are generic over `T`). -/
def cellAtD {α : Type} [Inhabited α] (g : List (List α)) (r c : Nat) : α :=
  (g.getD r []).getD c default

/-- A well-formed board is square: every row has length equal to the number
of rows (the data-model invariant of the source). -/
def Squarish {α : Type} (g : List (List α)) : Prop :=
  ∀ row ∈ g, row.length = g.length

instance {α : Type} (g : List (List α)) : Decidable (Squarish g) := by
  unfold Squarish; infer_instance

/-- `getEmptyCells` from `src/utils/board.ts`: row-major list of coordinates of
all cells equal to `0`. -/
def getEmptyCells (board : Board) : List (Nat × Nat) :=
  (List.range board.length).flatMap (fun r =>
    ((List.range (board.getD r []).length).filter
      (fun c => (board.getD r []).getD c 0 == 0)).map (fun c => (r, c)))

/-- The merge scan of `slideAndMerge`: the `for` loop over the zero-filtered
row, merging each earliest adjacent equal pair into one doubled element,
skipping past both merged sources (`i++` in the source), and accumulating the
doubled values into the score. -/
def mergePass : List Nat → List Nat × Nat
  | x :: y :: rest =>
    if x = y then
      let p := mergePass rest
      (x * 2 :: p.1, p.2 + x * 2)
    else
      let p := mergePass (y :: rest)
      (x :: p.1, p.2)
  | [x] => ([x], 0)
  | [] => ([], 0)

/-- `slideAndMerge` from `src/utils/board.ts`: drop zeros, run the merge scan,
right-pad with zeros to the original length. -/
def slideAndMerge (row : List Nat) : List Nat × Nat :=
  let filtered := row.filter (fun x => x != 0)
  let p := mergePass filtered
  (p.1 ++ List.replicate (row.length - p.1.length) 0, p.2)

/-- `rotateRight` from `src/utils/board.ts`: 90° clockwise rotation;
`newGrid[c][size - 1 - r] = grid[r][c]`, i.e. the output cell `(i, j)` reads
the input cell `(size - 1 - j, i)`. -/
def rotateRight {α : Type} [Inhabited α] (grid : List (List α)) : List (List α) :=
  (List.range grid.length).map (fun i =>
    (List.range grid.length).map (fun j =>
      (grid.getD (grid.length - 1 - j) []).getD i default))

/-- `rotateLeft` from `src/utils/board.ts`: 90° counter-clockwise rotation;
`newGrid[size - 1 - c][r] = grid[r][c]`, i.e. the output cell `(i, j)` reads
the input cell `(j, size - 1 - i)`. -/
def rotateLeft {α : Type} [Inhabited α] (grid : List (List α)) : List (List α) :=
  (List.range grid.length).map (fun i =>
    (List.range grid.length).map (fun j =>
      (grid.getD j []).getD (grid.length - 1 - i) default))

/-- `operate` from `src/utils/board.ts`: apply `slideAndMerge` to every row and
sum the per-row scores. -/
def operate (board : Board) : Board × Nat :=
  (board.map (fun row => (slideAndMerge row).1),
   (board.map (fun row => (slideAndMerge row).2)).sum)

/-- `moveLeft` from `src/utils/board.ts`. -/
def moveLeft (board : Board) : Board × Nat := operate board

/-- `moveRight` from `src/utils/board.ts`: reverse each row, operate, reverse
each result row back. -/
def moveRight (board : Board) : Board × Nat :=
  let reversed := board.map List.reverse
  let p := operate reversed
  (p.1.map List.reverse, p.2)

/-- `moveUp` from `src/utils/board.ts`: rotate counter-clockwise, operate,
rotate clockwise. -/
def moveUp (board : Board) : Board × Nat :=
  let rotated := rotateLeft board
  let p := operate rotated
  (rotateRight p.1, p.2)

/-- `moveDown` from `src/utils/board.ts`: rotate clockwise, operate, rotate
counter-clockwise. -/
def moveDown (board : Board) : Board × Nat :=
  let rotated := rotateRight board
  let p := operate rotated
  (rotateLeft p.1, p.2)

/-- `areBoardsEqual` from `src/utils/board.ts`: dimensions match and every cell
matches. -/
def areBoardsEqual (b1 b2 : Board) : Bool :=
  b1.length == b2.length &&
  (List.range b1.length).all (fun i =>
    (b1.getD i []).length == (b2.getD i []).length &&
    (List.range (b1.getD i []).length).all (fun j =>
      (b1.getD i []).getD j 0 == (b2.getD i []).getD j 0))

/-- `hasWon` from `src/utils/board.ts`: some cell equals 2048. -/
def hasWon (board : Board) : Bool :=
  board.any (fun row => row.any (fun cell => cell == 2048))

/-- `canMove` from `src/utils/board.ts`: some pair of vertically or
horizontally adjacent cells holds equal values. -/
def canMove (board : Board) : Bool :=
  let size := board.length
  (List.range size).any (fun r =>
    (List.range size).any (fun c =>
      (decide (r < size - 1) && (cellAt board r c == cellAt board (r + 1) c)) ||
      (decide (c < size - 1) && (cellAt board r c == cellAt board r (c + 1)))))

/-- `isGameOver` from `src/utils/board.ts`: false as soon as an empty cell
exists; otherwise the negation of `canMove`. -/
def isGameOver (board : Board) : Bool :=
  if (getEmptyCells board).length > 0 then false else !canMove board

/-- Writing one cell: `newBoard[r][c] = v` on the row-copied board inside
`addRandomTile` (the copy is the identity in a pure embedding). -/
def setCell (board : Board) (r c v : Nat) : Board :=
  board.set r ((board.getD r []).set c v)

/-- `addRandomTile` from `src/utils/board.ts`, with the two random draws made
explicit: `pick` selects the empty cell (the source draws a uniform index into
`emptyCells`; here any `pick` is reduced modulo the count) and `four` is the
10%-probability event that the new tile is a 4 rather than a 2. -/
def addRandomTile (board : Board) (pick : Nat) (four : Bool) :
    Board × Option (Nat × Nat) :=
  let emptyCells := getEmptyCells board
  if emptyCells.length = 0 then
    (board, none)
  else
    let rc := emptyCells.getD (pick % emptyCells.length) (0, 0)
    (setCell board rc.1 rc.2 (if four then 4 else 2), some rc)

/-- A direction input, as dispatched by the key/touch handlers. -/
inductive Direction : Type
  | up
  | down
  | left
  | right
deriving DecidableEq

/-- The move function the input handlers pass to `handleMove`. -/
def moveOf : Direction → Board → Board × Nat
  | Direction.up => moveUp
  | Direction.down => moveDown
  | Direction.left => moveLeft
  | Direction.right => moveRight

/-- The session state held by `useGameLogic`: board, cumulative score, and the
game-over and win flags (the high score is derived output, not consulted by
the transition). -/
structure GameState where
  board : Board
  score : Nat
  isOver : Bool
  won : Bool
deriving DecidableEq

/-- `handleMove` from `src/hooks/useGameLogic.ts`: ignore input when the game
is over; compute the candidate board; if unchanged do nothing; otherwise spawn
a tile, add the score delta, and re-evaluate the win and game-over flags on
the post-spawn board. -/
def handleMove (st : GameState) (d : Direction) (pick : Nat) (four : Bool) :
    GameState :=
  if st.isOver then st
  else
    let p := moveOf d st.board
    if areBoardsEqual st.board p.1 then st
    else
      let spawned := addRandomTile p.1 pick four
      let newBoardHasWon := hasWon spawned.1
      { board := spawned.1,
        score := st.score + p.2,
        won := if newBoardHasWon then true else st.won,
        isOver := if newBoardHasWon then true else isGameOver spawned.1 }

/-- Run a list of inputs through `handleMove`, each input carrying its
direction and the two random draws for the spawn. -/
def runMoves (st : GameState) : List (Direction × Nat × Bool) → GameState
  | [] => st
  | (d, pick, four) :: rest => runMoves (handleMove st d pick four) rest

/-- The score delta contributed by one input: zero when the session is over or
the move leaves the board unchanged, the move engine's delta otherwise. -/
def acceptedDelta (st : GameState) (d : Direction) : Nat :=
  if st.isOver then 0
  else if (moveOf d st.board).1 = st.board then 0
  else (moveOf d st.board).2

/-- Sum of the score deltas of the accepted (board-changing) moves along an
input sequence. -/
def acceptedScoreSum (st : GameState) : List (Direction × Nat × Bool) → Nat
  | [] => 0
  | (d, pick, four) :: rest =>
      acceptedDelta st d + acceptedScoreSum (handleMove st d pick four) rest

/-- Total value on the board: the sum over all cells. -/
def totalSum (b : Board) : Nat := (b.map List.sum).sum

/-- The line reducer exactly as §4.2 of the specification words it: the scan
over the compacted sequence, carrying the output built so far and the score
delta; an adjacent equal pair becomes one element of double the value and the
scan advances past both sources. -/
def specScan (acc : List Nat) (delta : Nat) : List Nat → List Nat × Nat
  | a :: b :: rest =>
      if a = b then specScan (acc ++ [a + a]) (delta + (a + a)) rest
      else specScan (acc ++ [a]) delta (b :: rest)
  | [a] => (acc ++ [a], delta)
  | [] => (acc, delta)

/-- `reduceLine` as §4.2 of the specification words it: remove zeros keeping
order, run the scan, right-pad with zeros to the original length. -/
def reduceLineSpec (line : List Nat) : List Nat × Nat :=
  let compacted := line.filter (fun x => x != 0)
  let p := specScan [] 0 compacted
  (p.1 ++ List.replicate (line.length - p.1.length) 0, p.2)

/-- "Two horizontally or vertically adjacent cells hold equal values", the
adjacency condition of §4.4 of the specification, with the same index bounds
the source loop uses. -/
def HasAdjacentEqual (b : Board) : Prop :=
  ∃ r c, (r + 1 < b.length ∧ c < b.length ∧ cellAt b r c = cellAt b (r + 1) c)
       ∨ (r < b.length ∧ c + 1 < b.length ∧ cellAt b r c = cellAt b r (c + 1))

section Lemmas

theorem handleMove_of_over (st : GameState) (d : Direction) (pick : Nat) (four : Bool)
    (h : st.isOver = true) : handleMove st d pick four = st := by
  unfold handleMove
  rw [if_pos h]

theorem getD_map_range {α : Type} {n i : Nat} (f : Nat → α) (d : α) (h : i < n) :
    ((List.range n).map f).getD i d = f i := by
  have h2 : i < (List.map f (List.range n)).length := by simpa using h
  rw [List.getD_eq_getElem _ _ h2, List.getElem_map, List.getElem_range]

theorem map_eq_self_of {α : Type} {l : List α} {f : α → α}
    (h : ∀ a ∈ l, f a = a) : l.map f = l :=
  (List.map_congr_left h).trans (List.map_id l)

theorem areBoardsEqual_iff (b1 b2 : Board) : areBoardsEqual b1 b2 = true ↔ b1 = b2 := by
  unfold areBoardsEqual
  simp only [Bool.and_eq_true, beq_iff_eq, List.all_eq_true, List.mem_range]
  constructor
  · rintro ⟨hlen, hall⟩
    refine List.ext_getElem hlen (fun i h1 h2 => ?_)
    obtain ⟨hrlen, hcell⟩ := hall i h1
    rw [List.getD_eq_getElem _ _ h1, List.getD_eq_getElem _ _ h2] at hrlen
    refine List.ext_getElem hrlen (fun j hj1 hj2 => ?_)
    have hc := hcell j (by rw [List.getD_eq_getElem _ _ h1]; exact hj1)
    rw [List.getD_eq_getElem _ _ h1, List.getD_eq_getElem _ _ h2,
      List.getD_eq_getElem _ _ hj1, List.getD_eq_getElem _ _ hj2] at hc
    exact hc
  · rintro rfl
    exact ⟨rfl, fun i _ => ⟨rfl, fun j _ => rfl⟩⟩

theorem specScan_eq (l : List Nat) :
    ∀ (acc : List Nat) (delta : Nat),
      specScan acc delta l = (acc ++ (mergePass l).1, delta + (mergePass l).2) := by
  induction l using mergePass.induct with
  | case1 y rest ih =>
      intro acc delta
      rw [specScan, mergePass, if_pos rfl, if_pos rfl, ih]
      refine Prod.ext ?_ ?_
      · simp [List.append_assoc, Nat.mul_two]
      · simp only []
        omega
  | case2 x y rest hxy ih =>
      intro acc delta
      rw [specScan, mergePass, if_neg hxy, if_neg hxy, ih]
      simp [List.append_assoc]
  | case3 x =>
      intro acc delta
      simp [specScan, mergePass]
  | case4 =>
      intro acc delta
      simp [specScan, mergePass]

theorem length_rotateRight {α : Type} [Inhabited α] (g : List (List α)) :
    (rotateRight g).length = g.length := by
  simp [rotateRight]

theorem length_rotateLeft {α : Type} [Inhabited α] (g : List (List α)) :
    (rotateLeft g).length = g.length := by
  simp [rotateLeft]

theorem squarish_rotateRight {α : Type} [Inhabited α] (g : List (List α)) :
    Squarish (rotateRight g) := by
  intro row hrow
  rw [length_rotateRight]
  unfold rotateRight at hrow
  obtain ⟨i, _, rfl⟩ := List.mem_map.mp hrow
  simp

theorem squarish_rotateLeft {α : Type} [Inhabited α] (g : List (List α)) :
    Squarish (rotateLeft g) := by
  intro row hrow
  rw [length_rotateLeft]
  unfold rotateLeft at hrow
  obtain ⟨i, _, rfl⟩ := List.mem_map.mp hrow
  simp

theorem cellAtD_rotateRight {α : Type} [Inhabited α] (g : List (List α)) {i j : Nat}
    (hi : i < g.length) (hj : j < g.length) :
    cellAtD (rotateRight g) i j = cellAtD g (g.length - 1 - j) i := by
  unfold cellAtD rotateRight
  rw [getD_map_range _ _ hi, getD_map_range _ _ hj]

theorem cellAtD_rotateLeft {α : Type} [Inhabited α] (g : List (List α)) {i j : Nat}
    (hi : i < g.length) (hj : j < g.length) :
    cellAtD (rotateLeft g) i j = cellAtD g j (g.length - 1 - i) := by
  unfold cellAtD rotateLeft
  rw [getD_map_range _ _ hi, getD_map_range _ _ hj]

theorem squarish_eq_ofCells {α : Type} [Inhabited α] (g : List (List α)) (hg : Squarish g) :
    g = (List.range g.length).map (fun i => (List.range g.length).map (cellAtD g i)) := by
  refine List.ext_getElem (by simp) (fun i h1 h2 => ?_)
  rw [List.getElem_map, List.getElem_range]
  have hrow : g[i].length = g.length := hg g[i] (List.getElem_mem h1)
  refine List.ext_getElem (by simpa using hrow) (fun j hj1 hj2 => ?_)
  rw [List.getElem_map, List.getElem_range]
  unfold cellAtD
  rw [List.getD_eq_getElem _ _ h1, List.getD_eq_getElem _ _ hj1]

theorem rotateLeft_rotateRight {α : Type} [Inhabited α] (g : List (List α))
    (hg : Squarish g) : rotateLeft (rotateRight g) = g := by
  conv_rhs => rw [squarish_eq_ofCells g hg]
  unfold rotateLeft
  rw [length_rotateRight]
  refine List.map_congr_left (fun i hi => ?_)
  rw [List.mem_range] at hi
  refine List.map_congr_left (fun j hj => ?_)
  rw [List.mem_range] at hj
  have h1 : g.length - 1 - i < g.length := by omega
  show cellAtD (rotateRight g) j (g.length - 1 - i) = cellAtD g i j
  rw [cellAtD_rotateRight g hj h1]
  congr 1
  omega

theorem rotateRight_rotateLeft {α : Type} [Inhabited α] (g : List (List α))
    (hg : Squarish g) : rotateRight (rotateLeft g) = g := by
  conv_rhs => rw [squarish_eq_ofCells g hg]
  unfold rotateRight
  rw [length_rotateLeft]
  refine List.map_congr_left (fun i hi => ?_)
  rw [List.mem_range] at hi
  refine List.map_congr_left (fun j hj => ?_)
  rw [List.mem_range] at hj
  have h1 : g.length - 1 - j < g.length := by omega
  show cellAtD (rotateLeft g) (g.length - 1 - j) i = cellAtD g i j
  rw [cellAtD_rotateLeft g h1 hi]
  congr 1
  omega

theorem mergePass_fst_cons_eq (x : Nat) (y : Nat) (rest : List Nat) (h : x = y) :
    mergePass (x :: y :: rest) = (x * 2 :: (mergePass rest).1, (mergePass rest).2 + x * 2) := by
  rw [mergePass, if_pos h]

theorem mergePass_fst_cons_ne (x : Nat) (y : Nat) (rest : List Nat) (h : ¬x = y) :
    mergePass (x :: y :: rest) = (x :: (mergePass (y :: rest)).1, (mergePass (y :: rest)).2) := by
  rw [mergePass, if_neg h]

theorem mergePass_sum (l : List Nat) : (mergePass l).1.sum = l.sum := by
  induction l using mergePass.induct with
  | case1 y rest ih =>
      rw [mergePass_fst_cons_eq y y rest rfl]
      simp only [List.sum_cons]
      omega
  | case2 x y rest hxy ih =>
      rw [mergePass_fst_cons_ne x y rest hxy]
      simp only [List.sum_cons] at *
      omega
  | case3 x => rfl
  | case4 => rfl

theorem mergePass_length_le (l : List Nat) : (mergePass l).1.length ≤ l.length := by
  induction l using mergePass.induct with
  | case1 y rest ih =>
      rw [mergePass_fst_cons_eq y y rest rfl]
      simp only [List.length_cons]
      omega
  | case2 x y rest hxy ih =>
      rw [mergePass_fst_cons_ne x y rest hxy]
      simp only [List.length_cons] at *
      omega
  | case3 x => exact Nat.le_refl 1
  | case4 => exact Nat.le_refl 0

theorem mergePass_eq_of_length (l : List Nat) :
    (mergePass l).1.length = l.length → (mergePass l).1 = l := by
  induction l using mergePass.induct with
  | case1 y rest ih =>
      rw [mergePass_fst_cons_eq y y rest rfl]
      intro hlen
      simp only [List.length_cons] at hlen
      have := mergePass_length_le rest
      omega
  | case2 x y rest hxy ih =>
      rw [mergePass_fst_cons_ne x y rest hxy]
      intro hlen
      simp only [List.length_cons] at hlen
      rw [ih (by simp only [List.length_cons]; omega)]
  | case3 x => intro _; rfl
  | case4 => intro _; rfl

theorem filter_nonzero_sum (l : List Nat) : (l.filter (fun x => x != 0)).sum = l.sum := by
  induction l with
  | nil => rfl
  | cons x rest ih =>
      by_cases hx : x = 0
      · subst hx
        simpa using ih
      · rw [List.filter_cons_of_pos (by simpa using hx), List.sum_cons, List.sum_cons, ih]

theorem slideAndMerge_sum (row : List Nat) : (slideAndMerge row).1.sum = row.sum := by
  unfold slideAndMerge
  rw [List.sum_append, mergePass_sum, filter_nonzero_sum]
  simp

theorem slideAndMerge_length (row : List Nat) :
    (slideAndMerge row).1.length = row.length := by
  unfold slideAndMerge
  rw [List.length_append, List.length_replicate]
  have h1 := mergePass_length_le (row.filter (fun x => x != 0))
  have h2 := List.length_filter_le (fun x => x != 0) row
  omega

theorem sum_map_range (n : Nat) (f : Nat → Nat) :
    ((List.range n).map f).sum = ∑ i ∈ Finset.range n, f i := by
  induction n with
  | zero => rfl
  | succ m ih =>
      rw [List.range_succ, List.map_append, List.sum_append, Finset.sum_range_succ, ih]
      simp

theorem totalSum_grid (n : Nat) (f : Nat → Nat → Nat) :
    totalSum ((List.range n).map (fun i => (List.range n).map (f i))) =
      ∑ i ∈ Finset.range n, ∑ j ∈ Finset.range n, f i j := by
  unfold totalSum
  rw [List.map_map, sum_map_range]
  refine Finset.sum_congr rfl (fun i _ => ?_)
  exact sum_map_range n (f i)

theorem cellAtD_eq_cellAt (b : Board) (r c : Nat) : cellAtD b r c = cellAt b r c := rfl

theorem totalSum_rotateRight (g : Board) (hg : Squarish g) :
    totalSum (rotateRight g) = totalSum g := by
  conv_rhs => rw [squarish_eq_ofCells g hg]
  unfold rotateRight
  rw [totalSum_grid, totalSum_grid]
  rw [Finset.sum_congr rfl (fun i _ =>
    Finset.sum_range_reflect (fun j => (g.getD j []).getD i default) g.length)]
  exact Finset.sum_comm

theorem totalSum_rotateLeft (g : Board) (hg : Squarish g) :
    totalSum (rotateLeft g) = totalSum g := by
  conv_rhs => rw [squarish_eq_ofCells g hg]
  unfold rotateLeft
  rw [totalSum_grid, totalSum_grid]
  rw [Finset.sum_range_reflect (fun i => ∑ j ∈ Finset.range g.length, (g.getD j []).getD i default)]
  exact Finset.sum_comm

theorem totalSum_operate (b : Board) : totalSum (operate b).1 = totalSum b := by
  unfold totalSum operate
  rw [List.map_map]
  congr 1
  refine List.map_congr_left (fun row _ => ?_)
  exact slideAndMerge_sum row

theorem totalSum_map_reverse (b : Board) : totalSum (b.map List.reverse) = totalSum b := by
  unfold totalSum
  rw [List.map_map]
  congr 1
  refine List.map_congr_left (fun row _ => ?_)
  exact List.sum_reverse row

theorem squarish_operate (b : Board) (hb : Squarish b) : Squarish (operate b).1 := by
  intro row hrow
  unfold operate at hrow
  simp only at hrow
  obtain ⟨row0, hrow0, rfl⟩ := List.mem_map.mp hrow
  have : (operate b).1.length = b.length := by
    unfold operate
    exact List.length_map b _
  rw [slideAndMerge_length]
  unfold operate
  rw [List.length_map]
  exact hb row0 hrow0

theorem getD_set {α : Type} (l : List α) (i j : Nat) (a d : α) :
    (l.set i a).getD j d = if i = j ∧ i < l.length then a else l.getD j d := by
  rw [List.getD_eq_getElem?_getD, List.getElem?_set]
  by_cases h : i = j
  · subst h
    by_cases h2 : i < l.length
    · simp [h2]
    · rw [if_pos rfl, if_neg h2, if_neg (by rintro ⟨-, hcon⟩; exact h2 hcon)]
      rw [List.getD_eq_getElem?_getD, List.getElem?_eq_none (by omega)]
  · rw [if_neg h, if_neg (by rintro ⟨hcon, -⟩; exact h hcon), List.getD_eq_getElem?_getD]

theorem mem_getEmptyCells {b : Board} {r c : Nat} :
    (r, c) ∈ getEmptyCells b ↔
      r < b.length ∧ c < (b.getD r []).length ∧ cellAt b r c = 0 := by
  unfold getEmptyCells cellAt
  simp only [List.mem_flatMap, List.mem_map, List.mem_filter, List.mem_range,
    beq_iff_eq, Prod.mk.injEq]
  constructor
  · rintro ⟨a, ha, c2, ⟨⟨hc2, hz⟩, rfl, rfl⟩⟩
    exact ⟨ha, hc2, hz⟩
  · rintro ⟨hr, hc, hz⟩
    exact ⟨r, hr, c, ⟨⟨hc, hz⟩, rfl, rfl⟩⟩

theorem rowlen_getD {α : Type} [Inhabited α] (g : List (List α)) (hg : Squarish g)
    {i : Nat} (hi : i < g.length) : (g.getD i []).length = g.length := by
  rw [List.getD_eq_getElem _ _ hi]
  exact hg _ (List.getElem_mem hi)

theorem zero_mem_iff_cell (b : Board) :
    (∃ row ∈ b, 0 ∈ row) ↔
      ∃ r c, r < b.length ∧ c < (b.getD r []).length ∧ cellAt b r c = 0 := by
  constructor
  · rintro ⟨row, hrow, hz⟩
    obtain ⟨r, hr, hre⟩ := List.mem_iff_getElem.mp hrow
    obtain ⟨c, hc, hcz⟩ := List.mem_iff_getElem.mp hz
    subst hre
    refine ⟨r, c, hr, ?_, ?_⟩
    · rw [List.getD_eq_getElem _ _ hr]
      exact hc
    · unfold cellAt
      rw [List.getD_eq_getElem _ _ hr, List.getD_eq_getElem _ _ hc]
      exact hcz
  · rintro ⟨r, c, hr, hc, hz⟩
    unfold cellAt at hz
    rw [List.getD_eq_getElem _ _ hc] at hz
    refine ⟨b.getD r [], ?_, ?_⟩
    · rw [List.getD_eq_getElem _ _ hr]
      exact List.getElem_mem hr
    · exact List.mem_iff_getElem.mpr ⟨c, hc, hz⟩

theorem slideAndMerge_ne_imp_zero_mem (row : List Nat)
    (h : (slideAndMerge row).1 ≠ row) : 0 ∈ (slideAndMerge row).1 := by
  by_cases hpad : row.length - (mergePass (row.filter (fun x => x != 0))).1.length = 0
  · exfalso
    apply h
    show (mergePass (row.filter (fun x => x != 0))).1 ++
      List.replicate (row.length - (mergePass (row.filter (fun x => x != 0))).1.length) 0 = row
    have hf := List.length_filter_le (fun x => x != 0) row
    have hm := mergePass_length_le (row.filter (fun x => x != 0))
    have hlenf : (row.filter (fun x => x != 0)).length = row.length := by omega
    have hlenm : (mergePass (row.filter (fun x => x != 0))).1.length
        = (row.filter (fun x => x != 0)).length := by omega
    have hfe : row.filter (fun x => x != 0) = row :=
      List.filter_eq_self.mpr (List.filter_length_eq_length.mp hlenf)
    rw [mergePass_eq_of_length _ hlenm, hfe]
    simp
  · show 0 ∈ (mergePass (row.filter (fun x => x != 0))).1 ++
      List.replicate (row.length - (mergePass (row.filter (fun x => x != 0))).1.length) 0
    refine List.mem_append.mpr (Or.inr ?_)
    rw [List.mem_replicate]
    exact ⟨hpad, rfl⟩

theorem operate_ne_imp_zero (X : Board) (h : (operate X).1 ≠ X) :
    ∃ row ∈ (operate X).1, 0 ∈ row := by
  by_cases hall : ∀ row ∈ X, (slideAndMerge row).1 = row
  · exact absurd (map_eq_self_of hall) h
  · push_neg at hall
    obtain ⟨row, hrow, hne⟩ := hall
    exact ⟨(slideAndMerge row).1, List.mem_map.mpr ⟨row, hrow, rfl⟩,
      slideAndMerge_ne_imp_zero_mem row hne⟩

theorem zero_mem_rotateRight (X : Board) (hX : Squarish X)
    (h : ∃ row ∈ X, 0 ∈ row) : ∃ row ∈ rotateRight X, 0 ∈ row := by
  rw [zero_mem_iff_cell] at h ⊢
  obtain ⟨r, c, hr, hc, hz⟩ := h
  have hcn : c < X.length := by
    rw [rowlen_getD X hX hr] at hc
    exact hc
  refine ⟨c, X.length - 1 - r, ?_, ?_, ?_⟩
  · rw [length_rotateRight]
    exact hcn
  · rw [rowlen_getD (rotateRight X) (squarish_rotateRight X)
      (by rw [length_rotateRight]; exact hcn), length_rotateRight]
    omega
  · rw [← cellAtD_eq_cellAt, cellAtD_rotateRight X hcn (by omega)]
    have he : X.length - 1 - (X.length - 1 - r) = r := by omega
    rw [he, cellAtD_eq_cellAt]
    exact hz

theorem zero_mem_rotateLeft (X : Board) (hX : Squarish X)
    (h : ∃ row ∈ X, 0 ∈ row) : ∃ row ∈ rotateLeft X, 0 ∈ row := by
  rw [zero_mem_iff_cell] at h ⊢
  obtain ⟨r, c, hr, hc, hz⟩ := h
  have hcn : c < X.length := by
    rw [rowlen_getD X hX hr] at hc
    exact hc
  refine ⟨X.length - 1 - c, r, ?_, ?_, ?_⟩
  · rw [length_rotateLeft]
    omega
  · rw [rowlen_getD (rotateLeft X) (squarish_rotateLeft X)
      (by rw [length_rotateLeft]; omega), length_rotateLeft]
    exact hr
  · rw [← cellAtD_eq_cellAt, cellAtD_rotateLeft X (by omega) hr]
    have he : X.length - 1 - (X.length - 1 - c) = c := by omega
    rw [he, cellAtD_eq_cellAt]
    exact hz

theorem getEmptyCells_ne_nil_of_zero (b : Board) (h : ∃ row ∈ b, 0 ∈ row) :
    getEmptyCells b ≠ [] := by
  rw [zero_mem_iff_cell] at h
  obtain ⟨r, c, hr, hc, hz⟩ := h
  intro hnil
  have hmem : (r, c) ∈ getEmptyCells b := mem_getEmptyCells.mpr ⟨hr, hc, hz⟩
  rw [hnil] at hmem
  exact List.not_mem_nil _ hmem

theorem zero_mem_moveResult (b : Board) (d : Direction) (hb : Squarish b)
    (hch : (moveOf d b).1 ≠ b) : ∃ row ∈ (moveOf d b).1, 0 ∈ row := by
  cases d with
  | left => exact operate_ne_imp_zero b hch
  | right =>
      have hinner : (operate (b.map List.reverse)).1 ≠ b.map List.reverse := by
        intro he
        apply hch
        show ((operate (b.map List.reverse)).1).map List.reverse = b
        rw [he, List.map_map]
        exact map_eq_self_of (fun a _ => List.reverse_reverse a)
      obtain ⟨row, hrow, hz⟩ := operate_ne_imp_zero _ hinner
      exact ⟨row.reverse, List.mem_map.mpr ⟨row, hrow, rfl⟩, List.mem_reverse.mpr hz⟩
  | up =>
      have hinner : (operate (rotateLeft b)).1 ≠ rotateLeft b := by
        intro he
        apply hch
        show rotateRight (operate (rotateLeft b)).1 = b
        rw [he]
        exact rotateRight_rotateLeft b hb
      exact zero_mem_rotateRight _ (squarish_operate _ (squarish_rotateLeft b))
        (operate_ne_imp_zero _ hinner)
  | down =>
      have hinner : (operate (rotateRight b)).1 ≠ rotateRight b := by
        intro he
        apply hch
        show rotateLeft (operate (rotateRight b)).1 = b
        rw [he]
        exact rotateLeft_rotateRight b hb
      exact zero_mem_rotateLeft _ (squarish_operate _ (squarish_rotateRight b))
        (operate_ne_imp_zero _ hinner)

end Lemmas

/-- C9: the line reducer conserves the sum of a line, and every directional
move conserves the total sum of the board (on square boards for the rotating
moves); only spawning changes the total. -/
theorem moves_conserve_totalSum (b : Board) :
    (∀ row : List Nat, (slideAndMerge row).1.sum = row.sum)
    ∧ totalSum (moveLeft b).1 = totalSum b
    ∧ totalSum (moveRight b).1 = totalSum b
    ∧ (Squarish b → totalSum (moveUp b).1 = totalSum b)
    ∧ (Squarish b → totalSum (moveDown b).1 = totalSum b) := by
  refine ⟨slideAndMerge_sum, totalSum_operate b, ?_, ?_, ?_⟩
  · show totalSum ((operate (b.map List.reverse)).1.map List.reverse) = totalSum b
    rw [totalSum_map_reverse, totalSum_operate, totalSum_map_reverse]
  · intro hb
    show totalSum (rotateRight (operate (rotateLeft b)).1) = totalSum b
    rw [totalSum_rotateRight _ (squarish_operate _ (squarish_rotateLeft b)),
      totalSum_operate, totalSum_rotateLeft b hb]
  · intro hb
    show totalSum (rotateLeft (operate (rotateRight b)).1) = totalSum b
    rw [totalSum_rotateLeft _ (squarish_operate _ (squarish_rotateRight b)),
      totalSum_operate, totalSum_rotateRight b hb]

/-- Witness for C9 on the square board `[[2,2],[4,0]]`. -/
theorem moves_conserve_totalSum_witness :
    totalSum (moveUp [[2, 2], [4, 0]]).1 = totalSum [[2, 2], [4, 0]]
    ∧ totalSum (moveDown [[2, 2], [4, 0]]).1 = totalSum [[2, 2], [4, 0]] :=
  ⟨(moves_conserve_totalSum [[2, 2], [4, 0]]).2.2.2.1 (by decide),
   (moves_conserve_totalSum [[2, 2], [4, 0]]).2.2.2.2 (by decide)⟩

/-- C10: whenever a directional move changes a square board, the result has at
least one empty cell, so the spawn right after an accepted move always places
a tile and returns its coordinate. -/
theorem accepted_move_leaves_empty_cell (b : Board) (d : Direction) (pick : Nat)
    (four : Bool) (hb : Squarish b) (hch : (moveOf d b).1 ≠ b) :
    getEmptyCells (moveOf d b).1 ≠ []
    ∧ (addRandomTile (moveOf d b).1 pick four).2 ≠ none := by
  have h1 := getEmptyCells_ne_nil_of_zero _ (zero_mem_moveResult b d hb hch)
  refine ⟨h1, ?_⟩
  unfold addRandomTile
  rw [if_neg (fun hz => h1 (List.eq_nil_of_length_eq_zero hz))]
  simp

/-- Witness for C10: pressing left on `[[2,2],[4,8]]` merges and leaves an
empty cell; the spawn returns a coordinate. -/
theorem accepted_move_leaves_empty_cell_witness :
    getEmptyCells (moveOf Direction.left [[2, 2], [4, 8]]).1 ≠ []
    ∧ (addRandomTile (moveOf Direction.left [[2, 2], [4, 8]]).1 0 false).2 ≠ none :=
  accepted_move_leaves_empty_cell [[2, 2], [4, 8]] Direction.left 0 false
    (by decide) (by decide)

/-- C5: on any square grid of any inhabited element type, the clockwise
rotation sends the cell at `(r, c)` to `(c, N-1-r)` and the counter-clockwise
rotation sends it to `(N-1-c, r)`, both preserve the square dimensions, and
the two rotations are mutual inverses. -/
theorem rotations_inverse {α : Type} [Inhabited α] (g : List (List α)) (hg : Squarish g) :
    ((rotateRight g).length = g.length ∧ Squarish (rotateRight g)
      ∧ (rotateLeft g).length = g.length ∧ Squarish (rotateLeft g))
    ∧ (∀ r c, r < g.length → c < g.length →
        cellAtD (rotateRight g) c (g.length - 1 - r) = cellAtD g r c
        ∧ cellAtD (rotateLeft g) (g.length - 1 - c) r = cellAtD g r c)
    ∧ rotateLeft (rotateRight g) = g
    ∧ rotateRight (rotateLeft g) = g := by
  refine ⟨⟨length_rotateRight g, squarish_rotateRight g, length_rotateLeft g,
    squarish_rotateLeft g⟩, fun r c hr hc => ⟨?_, ?_⟩,
    rotateLeft_rotateRight g hg, rotateRight_rotateLeft g hg⟩
  · rw [cellAtD_rotateRight g hc (by omega)]
    congr 1
    omega
  · rw [cellAtD_rotateLeft g (by omega) hr]
    congr 1
    omega

/-- Witness for C5 on the concrete square grid `[[1,2],[3,4]]`. -/
theorem rotations_inverse_witness :
    rotateLeft (rotateRight ([[1, 2], [3, 4]] : List (List Nat))) = [[1, 2], [3, 4]]
    ∧ cellAtD (rotateRight ([[1, 2], [3, 4]] : List (List Nat))) 1 (2 - 1 - 0)
        = cellAtD ([[1, 2], [3, 4]] : List (List Nat)) 0 1 :=
  ⟨(rotations_inverse ([[1, 2], [3, 4]] : List (List Nat)) (by decide)).2.2.1,
   ((rotations_inverse ([[1, 2], [3, 4]] : List (List Nat)) (by decide)).2.1 0 1
     (by decide) (by decide)).1⟩

/-- C2: the line reducer removes zeros preserving order, merges each earliest
adjacent equal pair once (left to right, no re-merge, doubled value added to
the score delta), right-pads with zeros — i.e. it agrees with the
specification's `reduceLine` — and meets the two quoted examples. -/
theorem slideAndMerge_matches_spec :
    (∀ row : List Nat, slideAndMerge row = reduceLineSpec row)
    ∧ slideAndMerge [2, 2, 4, 4] = ([4, 8, 0, 0], 12)
    ∧ slideAndMerge [2, 2, 2, 0] = ([4, 2, 0, 0], 4) := by
  refine ⟨fun row => ?_, by decide, by decide⟩
  unfold slideAndMerge reduceLineSpec
  simp [specScan_eq]

/-- C4: when the candidate board of a move equals the current board cell for
cell, `handleMove` leaves the whole session state unchanged — no spawn, same
score, same board and flags. -/
theorem handleMove_noop (st : GameState) (d : Direction) (pick : Nat) (four : Bool)
    (h : (moveOf d st.board).1 = st.board) :
    handleMove st d pick four = st := by
  unfold handleMove
  by_cases hov : st.isOver
  · rw [if_pos hov]
  · rw [if_neg hov, if_pos]
    rw [h]
    exact (areBoardsEqual_iff st.board st.board).mpr rfl

/-- Witness for C4: pressing left on an already left-packed board changes
nothing. -/
theorem handleMove_noop_witness :
    handleMove ⟨[[2, 0], [4, 0]], 7, false, false⟩ Direction.left 0 true
      = ⟨[[2, 0], [4, 0]], 7, false, false⟩ :=
  handleMove_noop ⟨[[2, 0], [4, 0]], 7, false, false⟩ Direction.left 0 true (by decide)

/-- C1 (as stated by the spec) is false on the code: on this accepted move the
post-spawn board contains 2048 and still has a legal move (an empty cell), the
win flag is set, yet the session also sets the game-over flag, and a further
direction input that would change the board is ignored. -/
theorem win_sets_game_over_counterexample :
    (handleMove ⟨[[1024, 1024], [2, 2]], 0, false, false⟩ Direction.left 0 false).isOver = true
    ∧ (handleMove ⟨[[1024, 1024], [2, 2]], 0, false, false⟩ Direction.left 0 false).won = true
    ∧ hasWon (handleMove ⟨[[1024, 1024], [2, 2]], 0, false, false⟩ Direction.left 0 false).board = true
    ∧ isGameOver (handleMove ⟨[[1024, 1024], [2, 2]], 0, false, false⟩ Direction.left 0 false).board = false
    ∧ (moveOf Direction.down (handleMove ⟨[[1024, 1024], [2, 2]], 0, false, false⟩ Direction.left 0 false).board).1
        ≠ (handleMove ⟨[[1024, 1024], [2, 2]], 0, false, false⟩ Direction.left 0 false).board
    ∧ handleMove (handleMove ⟨[[1024, 1024], [2, 2]], 0, false, false⟩ Direction.left 0 false)
        Direction.down 0 false
        = handleMove ⟨[[1024, 1024], [2, 2]], 0, false, false⟩ Direction.left 0 false := by
  decide

/-- C1 (amended): on an accepted move whose post-spawn board contains 2048,
the session marks the win flag and also transitions to the terminal state:
every further move input is ignored, even when the post-spawn board still has
a legal move. -/
theorem win_transitions_to_over (st : GameState) (d : Direction) (pick : Nat) (four : Bool)
    (hplay : st.isOver = false)
    (hacc : (moveOf d st.board).1 ≠ st.board)
    (hwin : hasWon (addRandomTile (moveOf d st.board).1 pick four).1 = true) :
    (handleMove st d pick four).won = true
    ∧ (handleMove st d pick four).isOver = true
    ∧ (handleMove st d pick four).board = (addRandomTile (moveOf d st.board).1 pick four).1
    ∧ (handleMove st d pick four).score = st.score + (moveOf d st.board).2
    ∧ ∀ (d2 : Direction) (pick2 : Nat) (four2 : Bool),
        handleMove (handleMove st d pick four) d2 pick2 four2 = handleMove st d pick four := by
  have hne : areBoardsEqual st.board (moveOf d st.board).1 = false := by
    rw [Bool.eq_false_iff]
    intro hcontra
    exact hacc ((areBoardsEqual_iff _ _).mp hcontra).symm
  have hmain : handleMove st d pick four =
      { board := (addRandomTile (moveOf d st.board).1 pick four).1,
        score := st.score + (moveOf d st.board).2,
        won := true,
        isOver := true } := by
    unfold handleMove
    rw [if_neg (by rw [hplay]; exact Bool.false_ne_true), if_neg (by rw [hne]; exact Bool.false_ne_true)]
    simp [hwin]
  exact ⟨by rw [hmain], by rw [hmain], by rw [hmain], by rw [hmain],
    fun d2 pick2 four2 => handleMove_of_over _ d2 pick2 four2 (by rw [hmain])⟩

theorem canMove_iff (b : Board) : canMove b = true ↔ HasAdjacentEqual b := by
  unfold canMove HasAdjacentEqual
  simp only [List.any_eq_true, List.mem_range, Bool.or_eq_true, Bool.and_eq_true,
    decide_eq_true_eq, beq_iff_eq]
  constructor
  · rintro ⟨r, hr, c, hc, ⟨h1, he⟩ | ⟨h2, he⟩⟩
    · exact ⟨r, c, Or.inl ⟨by omega, hc, he⟩⟩
    · exact ⟨r, c, Or.inr ⟨hr, by omega, he⟩⟩
  · rintro ⟨r, c, ⟨h1, hc, he⟩ | ⟨hr, h2, he⟩⟩
    · exact ⟨r, by omega, c, hc, Or.inl ⟨by omega, he⟩⟩
    · exact ⟨r, hr, c, by omega, Or.inr ⟨by omega, he⟩⟩

/-- C3: `isGameOver` is false on every board with an empty cell; on a board
with no empty cell it is true exactly when no two horizontally or vertically
adjacent cells hold equal values. -/
theorem isGameOver_characterization :
    (∀ b : Board, getEmptyCells b ≠ [] → isGameOver b = false)
    ∧ ∀ b : Board, getEmptyCells b = [] → (isGameOver b = true ↔ ¬ HasAdjacentEqual b) := by
  constructor
  · intro b h
    unfold isGameOver
    rw [if_pos]
    exact Nat.pos_of_ne_zero (fun hz => h (List.eq_nil_of_length_eq_zero hz))
  · intro b h
    unfold isGameOver
    rw [if_neg (by rw [h]; simp)]
    rw [Bool.not_eq_true', Bool.eq_false_iff, Ne, canMove_iff]

/-- Witness for C3: a board with an empty cell is not game over even with a
mergeable pair present; a full board with no equal neighbours is game over. -/
theorem isGameOver_characterization_witness :
    isGameOver [[2, 0], [4, 4]] = false ∧ isGameOver [[2, 4], [4, 2]] = true :=
  ⟨isGameOver_characterization.1 [[2, 0], [4, 4]] (by decide),
   (isGameOver_characterization.2 [[2, 4], [4, 2]] (by decide)).mpr (by
     rintro ⟨r, c, ⟨h1, hc, he⟩ | ⟨hr, h2, he⟩⟩
     · have hr0 : r = 0 := by simp only [List.length_cons, List.length_nil] at h1; omega
       have hc0 : c = 0 ∨ c = 1 := by simp only [List.length_cons, List.length_nil] at hc; omega
       subst hr0
       rcases hc0 with rfl | rfl <;> exact absurd he (by decide)
     · have hc0 : c = 0 := by simp only [List.length_cons, List.length_nil] at h2; omega
       have hr0 : r = 0 ∨ r = 1 := by simp only [List.length_cons, List.length_nil] at hr; omega
       subst hc0
       rcases hr0 with rfl | rfl <;> exact absurd he (by decide))⟩

/-- C6: each directional move is the stated composition of geometry
transforms around the leftward line reducer, and its score delta is the sum of
the per-row reducer deltas. -/
theorem moves_compose_reducer (b : Board) :
    moveUp b = (rotateRight ((rotateLeft b).map (fun row => (slideAndMerge row).1)),
                ((rotateLeft b).map (fun row => (slideAndMerge row).2)).sum)
    ∧ moveDown b = (rotateLeft ((rotateRight b).map (fun row => (slideAndMerge row).1)),
                ((rotateRight b).map (fun row => (slideAndMerge row).2)).sum)
    ∧ moveRight b = (((b.map List.reverse).map (fun row => (slideAndMerge row).1)).map List.reverse,
                ((b.map List.reverse).map (fun row => (slideAndMerge row).2)).sum)
    ∧ moveLeft b = (b.map (fun row => (slideAndMerge row).1),
                (b.map (fun row => (slideAndMerge row).2)).sum) :=
  ⟨rfl, rfl, rfl, rfl⟩

/-- C7: `addRandomTile` on a board with no empty cell returns the board
unchanged with no coordinate; on a board with an empty cell it returns the
chosen coordinate, whose cell was `0` and now holds `4` or `2` according to
the random draw, every other cell and all dimensions being unchanged. -/
theorem addRandomTile_spec (b : Board) (pick : Nat) (four : Bool) :
    (getEmptyCells b = [] → addRandomTile b pick four = (b, none))
    ∧ (getEmptyCells b ≠ [] →
        ∃ r c, (addRandomTile b pick four).2 = some (r, c)
          ∧ r < b.length ∧ c < (b.getD r []).length
          ∧ cellAt b r c = 0
          ∧ cellAt (addRandomTile b pick four).1 r c = (if four then 4 else 2)
          ∧ (addRandomTile b pick four).1.length = b.length
          ∧ (∀ i, ((addRandomTile b pick four).1.getD i []).length = (b.getD i []).length)
          ∧ ∀ r2 c2, (r2, c2) ≠ (r, c) →
              cellAt (addRandomTile b pick four).1 r2 c2 = cellAt b r2 c2) := by
  constructor
  · intro h
    unfold addRandomTile
    rw [if_pos (by rw [h]; rfl)]
  · intro h
    have hlen : (getEmptyCells b).length ≠ 0 :=
      fun hz => h (List.eq_nil_of_length_eq_zero hz)
    have hidx : pick % (getEmptyCells b).length < (getEmptyCells b).length :=
      Nat.mod_lt _ (Nat.pos_of_ne_zero hlen)
    have hres : addRandomTile b pick four =
        (setCell b ((getEmptyCells b).getD (pick % (getEmptyCells b).length) (0, 0)).1
          ((getEmptyCells b).getD (pick % (getEmptyCells b).length) (0, 0)).2
          (if four then 4 else 2),
         some ((getEmptyCells b).getD (pick % (getEmptyCells b).length) (0, 0))) := by
      unfold addRandomTile
      rw [if_neg hlen]
    have hmem : (getEmptyCells b).getD (pick % (getEmptyCells b).length) (0, 0)
        ∈ getEmptyCells b := by
      rw [List.getD_eq_getElem _ _ hidx]
      exact List.getElem_mem hidx
    obtain ⟨hr, hc, hz⟩ := mem_getEmptyCells.mp
      (by rw [← Prod.mk.eta
        (p := (getEmptyCells b).getD (pick % (getEmptyCells b).length) (0, 0))] at hmem
          exact hmem)
    refine ⟨_, _, by rw [hres], hr, hc, hz, ?_, ?_, ?_, ?_⟩
    · rw [hres]
      unfold setCell cellAt
      rw [getD_set]
      rw [if_pos ⟨rfl, hr⟩, getD_set, if_pos ⟨rfl, hc⟩]
    · rw [hres]
      unfold setCell
      exact List.length_set b _ _
    · intro i
      rw [hres]
      unfold setCell
      rw [getD_set]
      by_cases hcase : ((getEmptyCells b).getD (pick % (getEmptyCells b).length) (0, 0)).1 = i
          ∧ ((getEmptyCells b).getD (pick % (getEmptyCells b).length) (0, 0)).1 < b.length
      · rw [if_pos hcase, List.length_set, ← hcase.1]
      · rw [if_neg hcase]
    · intro r2 c2 hne
      rw [hres]
      unfold setCell cellAt
      rw [getD_set]
      by_cases hcase : ((getEmptyCells b).getD (pick % (getEmptyCells b).length) (0, 0)).1 = r2
          ∧ ((getEmptyCells b).getD (pick % (getEmptyCells b).length) (0, 0)).1 < b.length
      · rw [if_pos hcase, getD_set, if_neg ?_, hcase.1]
        rintro ⟨hceq, _⟩
        exact hne (by rw [← hcase.1, ← hceq])
      · rw [if_neg hcase]

/-- Witness for C7: on `[[2,0],[4,4]]` the spawn fills the one empty cell, and
on the full board `[[2,4],[4,2]]` it returns the board unchanged with no
coordinate. -/
theorem addRandomTile_spec_witness :
    addRandomTile [[2, 4], [4, 2]] 0 false = ([[2, 4], [4, 2]], none)
    ∧ ∃ r c, (addRandomTile [[2, 0], [4, 4]] 3 true).2 = some (r, c)
        ∧ r < ([[2, 0], [4, 4]] : Board).length
        ∧ c < (([[2, 0], [4, 4]] : Board).getD r []).length
        ∧ cellAt [[2, 0], [4, 4]] r c = 0
        ∧ cellAt (addRandomTile [[2, 0], [4, 4]] 3 true).1 r c = (if true then 4 else 2)
        ∧ (addRandomTile [[2, 0], [4, 4]] 3 true).1.length = ([[2, 0], [4, 4]] : Board).length
        ∧ (∀ i, ((addRandomTile [[2, 0], [4, 4]] 3 true).1.getD i []).length
            = (([[2, 0], [4, 4]] : Board).getD i []).length)
        ∧ ∀ r2 c2, (r2, c2) ≠ (r, c) →
            cellAt (addRandomTile [[2, 0], [4, 4]] 3 true).1 r2 c2
              = cellAt [[2, 0], [4, 4]] r2 c2 :=
  ⟨(addRandomTile_spec [[2, 4], [4, 2]] 0 false).1 (by decide),
   (addRandomTile_spec [[2, 0], [4, 4]] 3 true).2 (by decide)⟩

/-- One step of score bookkeeping: `handleMove` adds exactly the accepted
delta of its input to the cumulative score. -/
theorem handleMove_score (st : GameState) (d : Direction) (pick : Nat) (four : Bool) :
    (handleMove st d pick four).score = st.score + acceptedDelta st d := by
  unfold handleMove acceptedDelta
  by_cases hov : st.isOver
  · rw [if_pos hov, if_pos hov]
    exact (Nat.add_zero _).symm
  · rw [if_neg hov, if_neg hov]
    by_cases heq : (moveOf d st.board).1 = st.board
    · rw [if_pos ((areBoardsEqual_iff st.board (moveOf d st.board).1).mpr heq.symm), if_pos heq]
      exact (Nat.add_zero _).symm
    · rw [if_neg (fun hc => heq ((areBoardsEqual_iff _ _).mp hc).symm), if_neg heq]

/-- C8: after any input sequence, the cumulative score equals the starting
score plus the sum of the score deltas of the accepted (board-changing) moves:
each accepted delta is counted exactly once, rejected inputs and spawns
contribute nothing. -/
theorem score_is_sum_of_accepted_deltas (inputs : List (Direction × Nat × Bool)) :
    ∀ st : GameState,
      (runMoves st inputs).score = st.score + acceptedScoreSum st inputs := by
  induction inputs with
  | nil => intro st; rfl
  | cons input rest ih =>
      intro st
      obtain ⟨d, pick, four⟩ := input
      rw [runMoves, acceptedScoreSum, ih, handleMove_score]
      omega

/-- Witness for C1 (amended): merging 1024+1024 to the left and spawning a 2
reaches 2048; the session sets both flags and ignores the next input. -/
theorem win_transitions_to_over_witness :
    (handleMove ⟨[[1024, 1024], [4, 2]], 5, false, false⟩ Direction.left 0 false).won = true
    ∧ (handleMove ⟨[[1024, 1024], [4, 2]], 5, false, false⟩ Direction.left 0 false).isOver = true
    ∧ (handleMove ⟨[[1024, 1024], [4, 2]], 5, false, false⟩ Direction.left 0 false).board
        = (addRandomTile (moveOf Direction.left [[1024, 1024], [4, 2]]).1 0 false).1
    ∧ (handleMove ⟨[[1024, 1024], [4, 2]], 5, false, false⟩ Direction.left 0 false).score
        = 5 + (moveOf Direction.left [[1024, 1024], [4, 2]]).2
    ∧ ∀ (d2 : Direction) (pick2 : Nat) (four2 : Bool),
        handleMove (handleMove ⟨[[1024, 1024], [4, 2]], 5, false, false⟩ Direction.left 0 false) d2 pick2 four2
          = handleMove ⟨[[1024, 1024], [4, 2]], 5, false, false⟩ Direction.left 0 false :=
  win_transitions_to_over ⟨[[1024, 1024], [4, 2]], 5, false, false⟩ Direction.left 0 false
    (by decide) (by decide) (by decide)

end Game2048
